import Mathlib

/-!
Verification of the resource-resolution and build logic of
`scripts/build_extension.py`, the build/packaging utility for a browser
extension.

Shallow embedding conventions:

* A repository-relative path (`pathlib.Path` relative to `REPO_ROOT`) is a
  `List String` of components; `pathOf` mirrors how `PurePath` parses a
  string (splitting on `/`, dropping empty components and single dots,
  keeping `..`).
* The filesystem is a `Repo`: the absolute components of `REPO_ROOT`, the
  finite set of regular files that exist under it (repo-relative), and, for
  each HTML file, the list of raw `src=`/`href=` attribute values the
  regex `(?:src|href)\s*=\s*['\x22]([^'\x22]+)['\x22]` finds in its text
  (the textual scan itself is modelled at the level of its output values).
* Resource sets (`set` of `Path` in Python) are `Finset (List String)`.
* `fnmatch.fnmatch` is modelled by `globMatch` for the `*` and `?`
  wildcards (any other character matches literally; the repository's
  patterns use no character classes), applied to the file base name as in
  the source.
* The copy phase is pure: `copy_resource` returns what ends up at the
  output path (a copy of the source file or the synthesized placeholder
  PNG, or nothing when a non-placeholder source is missing), and `build`
  returns every attempted copy together with the aggregated missing-path
  error, `none` meaning the process exits with code 0.
-/

/-- A repository-relative path, as the tuple of components that
`PurePath.parts` would give. -/
abbrev FilePath' := List String

/-- Splitting a character list at `/`, as `str.split("/")` /
`String.splitOn "/"` behave (empty pieces kept). -/
def splitSlash : List Char → List (List Char)
  | [] => [[]]
  | c :: cs =>
    if c = '/' then [] :: splitSlash cs
    else
      match splitSlash cs with
      | [] => [[c]]
      | h :: t => (c :: h) :: t

/-- `Path(s)` for a string `s`: split on `/`, drop empty components and
single dots (as `PurePath` normalisation does), keep `..`. -/
def pathOf (s : String) : FilePath' :=
  ((splitSlash s.data).map (fun cs => (⟨cs⟩ : String))).filter
    (fun c => !(c == "" || c == "."))

/-- The whitespace characters `str.strip()` removes (the common ones). -/
def isSpaceChar (c : Char) : Bool :=
  c = ' ' || c = '\t' || c = '\n' || c = '\r'

/-- `str.strip()`: remove leading and trailing whitespace. -/
def strTrim (s : String) : String :=
  ⟨((s.data.dropWhile isSpaceChar).reverse.dropWhile isSpaceChar).reverse⟩

/-- `str.startswith(pre)`. -/
def strStartsWith (s pre : String) : Bool :=
  pre.data.isPrefixOf s.data

/-- Base name of a path (`Path.name`); empty for the empty path. -/
def baseName (p : FilePath') : String := p.getLastD ""

/-- The filesystem state the build script runs against. `files` are the
regular files that exist, repo-relative; `htmlVals p` is the list of raw
attribute values the source's regex scan extracts from the text of the
HTML file at repo-relative path `p` (meaningful only when `p ∈ files`). -/
structure Repo where
  root : List String
  files : Finset FilePath'
  htmlVals : FilePath' → List String

/-- Files strictly beneath directory `d` — what `d.rglob("*")` filtered by
`is_file()` yields, repo-relative. -/
def filesUnder (files : Finset FilePath') (d : FilePath') : Finset FilePath' :=
  files.filter (fun p => d <+: p ∧ p ≠ d)

/-- A directory exists (and is a directory) when some regular file lies
strictly beneath it. -/
def dirExists (repo : Repo) (d : FilePath') : Prop :=
  (filesUnder repo.files d).Nonempty

instance (repo : Repo) (d : FilePath') : Decidable (dirExists repo d) :=
  inferInstanceAs (Decidable (filesUnder repo.files d).Nonempty)

/-- `Path.exists()` for the repo-relative path `p`: a regular file or a
directory with that name exists. -/
def pathExists (repo : Repo) (p : FilePath') : Prop :=
  p ∈ repo.files ∨ dirExists repo p

instance (repo : Repo) (p : FilePath') : Decidable (pathExists repo p) :=
  inferInstanceAs (Decidable (_ ∨ _))

/-- One entry of `content_scripts` (only the consumed `js` field). -/
structure ContentScript where
  js : List String := []
deriving DecidableEq

/-- One entry of `web_accessible_resources` (only the consumed
`resources` field). -/
structure WebAccessibleEntry where
  resources : List String := []
deriving DecidableEq

/-- The manifest fields `build_extension.py` consumes.  A missing JSON
field corresponds to `none` / `[]` (the source reads every field with
`.get` and a default). -/
structure Manifest where
  background_service_worker : Option String := none
  content_scripts : List ContentScript := []
  side_panel_default_path : Option String := none
  action_default_icon : Option String := none
  icons : List (String × String) := []
  web_accessible_resources : List WebAccessibleEntry := []
deriving DecidableEq

/-- `if s:` on an optional string field — truthy only when present and
nonempty — yielding the singleton resource it contributes. -/
def optPath (o : Option String) : Finset FilePath' :=
  match o with
  | some s => if s = "" then ∅ else {pathOf s}
  | none => ∅

/-- `collect_minimal_resources`: background service worker, all
content-script `js` paths, side-panel default path, action default icon,
every `icons` mapping value, and every file under `_locales` (recursively,
when that directory exists — an absent directory contributes no files). -/
def collect_minimal_resources (repo : Repo) (m : Manifest) : Finset FilePath' :=
  optPath m.background_service_worker
    ∪ ((m.content_scripts.flatMap ContentScript.js).map pathOf).toFinset
    ∪ optPath m.side_panel_default_path
    ∪ optPath m.action_default_icon
    ∪ ((m.icons.map (fun kv => pathOf kv.2)).toFinset)
    ∪ filesUnder repo.files ["_locales"]

/-- `include_extra_runtime_dirs`: add every file under the hard-coded
`agent_js` and `agent` directories (skipping an absent directory). -/
def include_extra_runtime_dirs (repo : Repo) (resources : Finset FilePath') :
    Finset FilePath' :=
  resources ∪ filesUnder repo.files ["agent_js"] ∪ filesUnder repo.files ["agent"]

/-- `Path.resolve()` on a component list: drop `.`, let `..` pop the last
component (at the filesystem root `..` stays put, as `dropLast [] = []`). -/
def normalizeComponents (l : List String) : List String :=
  l.foldl (fun acc c => if c = ".." then acc.dropLast else if c = "." then acc else acc ++ [c]) []

/-- `(html_path.parent / raw).resolve()`: an attribute value starting with
`/` is absolute; otherwise it is joined to the HTML file's directory under
the repository root. Result is in absolute components. -/
def resolveRef (root htmlRel : List String) (raw : String) : List String :=
  if strStartsWith raw "/" then normalizeComponents (pathOf raw)
  else normalizeComponents (root ++ htmlRel.dropLast ++ pathOf raw)

/-- Process one raw attribute value as the loop body of
`extract_html_asset_refs` does: strip it, drop it when empty, containing
`://` or starting with `data:`; otherwise resolve it against the HTML
file's directory and keep it (repo-relative) exactly when the resolved
absolute path lies under the repository root.  (In the source, both the
existing-file branch and the missing-file branch add the reference
precisely when `relative_to(REPO_ROOT)` succeeds; the
`str(...).startswith` pre-check only ever rejects paths on which
`relative_to` would raise anyway.) -/
def refOfRaw (root htmlRel : List String) (raw : String) : Option FilePath' :=
  let t := strTrim raw
  if t = "" || decide ("://".toList <:+: t.toList) || strStartsWith t "data:" then none
  else if root.isPrefixOf (resolveRef root htmlRel t) then
    some ((resolveRef root htmlRel t).drop root.length)
  else none

/-- `extract_html_asset_refs`: the set of repo-relative references the
`src=`/`href=` scan of an HTML file yields; empty when the file does not
exist. -/
def extract_html_asset_refs (repo : Repo) (htmlRel : FilePath') : Finset FilePath' :=
  if htmlRel ∈ repo.files then
    ((repo.htmlVals htmlRel).filterMap (refOfRaw repo.root htmlRel)).toFinset
  else ∅

/-- The asset-bundle root of a discovered reference: the components up to
and including the first one literally named `assets`, when there is one
(`parts.index("assets")` takes the first occurrence). -/
def assetDirOf (ref : FilePath') : Option FilePath' :=
  if "assets" ∈ ref then some (ref.take (ref.indexOf "assets" + 1)) else none

/-- The two conventionally located HTML entry points the resolver scans. -/
def entryCandidates : List FilePath' :=
  [["side-panel", "index.html"], ["options", "index.html"]]

/-- The entry HTML files that exist in the repository. -/
def entryFiles (repo : Repo) : List FilePath' :=
  entryCandidates.filter (fun h => decide (h ∈ repo.files))

/-- `include_side_panel_and_options_assets`: add each existing entry HTML
file, every reference its scan discovers, and — for every discovered
reference containing a component named `assets` — every file beneath the
bundle directory ending at that first `assets` component. -/
def include_side_panel_and_options_assets (repo : Repo)
    (resources : Finset FilePath') : Finset FilePath' :=
  resources ∪ (entryFiles repo).toFinset
    ∪ (entryFiles repo).toFinset.biUnion (extract_html_asset_refs repo)
    ∪ (((entryFiles repo).toFinset.biUnion (extract_html_asset_refs repo)).biUnion
        (fun r =>
          match assetDirOf r with
          | some d => {d}
          | none => ∅)).biUnion
        (filesUnder repo.files)

/-- Shell-glob matching on characters, as `fnmatch.fnmatch` behaves for
patterns built from `*` (any run of characters — the translated regex
`.*`, matched here by trying every suffix), `?` (any single character),
and literal characters. -/
def globMatch : List Char → List Char → Bool
  | [], s => s.isEmpty
  | a :: ps, s =>
    if a = '*' then s.tails.any (fun t => globMatch ps t)
    else
      match s with
      | [] => false
      | c :: cs => (if a = '?' then true else a == c) && globMatch ps cs

/-- All patterns listed under `web_accessible_resources[].resources`. -/
def allPatterns (m : Manifest) : List String :=
  m.web_accessible_resources.flatMap WebAccessibleEntry.resources

/-- `any(ch in pattern for ch in ["*", "?"])`. -/
def hasWildcard (pat : String) : Bool :=
  pat.toList.any (fun c => c == '*' || c == '?')

/-- The wildcard branch of `collect_full_resources`: every existing file
whose base name glob-matches the pattern, anywhere in the tree. -/
def globExpand (repo : Repo) (pat : String) : Finset FilePath' :=
  repo.files.filter (fun p => globMatch pat.toList (baseName p).toList = true)

/-- The literal branch: the path itself when it exists. -/
def literalExpand (repo : Repo) (pat : String) : Finset FilePath' :=
  if pathExists repo (pathOf pat) then {pathOf pat} else ∅

/-- `collect_full_resources`: start from the minimal set and add each
pattern's expansion. -/
def collect_full_resources (repo : Repo) (m : Manifest)
    (minimal : Finset FilePath') : Finset FilePath' :=
  minimal ∪ (allPatterns m).toFinset.biUnion (fun pat =>
    if hasWildcard pat then globExpand repo pat else literalExpand repo pat)

/-- The two base names granted placeholder fallback. -/
def placeholderNames : List String := ["icon-32.png", "icon-128.png"]

/-- The base64 payload of the synthesized 32×32 transparent PNG. -/
def TRANSPARENT_32_PX_PNG_BASE64 : String :=
  "iVBORw0KGgoAAAANSUhEUgAAACAAAAAgCAYAAABzenr0AAAACXBIWXMAAA7EAAAOxAGVKw4bAAAAGXRFWHRTb2Z0d2FyZQBwYWludC5uZXQgNC4yLjE1hXshUgAAABNJREFUWIXt0LENgEAMwEAwjKj+/5M8QxG0iVIXKu1unXwLE1x5AfL8jz8u4cQBAgQIECBAn8A0dyP3+AD4GZJcrkAAAAASUVORK5CYII="

/-- What `copy_resource` leaves at the output path. -/
inductive OutEntry where
  | copied (src : FilePath')
  | placeholder (base64 : String)
deriving DecidableEq

/-- `copy_resource`: copy the source when it exists; otherwise synthesize
the placeholder when the base name is one of the two eligible icon names;
otherwise write nothing (warn and skip — the build's missing list handles
the failure). -/
def copy_resource (repo : Repo) (rel : FilePath') : Option OutEntry :=
  if pathExists repo rel then some (.copied rel)
  else if baseName rel ∈ placeholderNames then
    some (.placeholder TRANSPARENT_32_PX_PNG_BASE64)
  else none

/-- The two recognized build modes (any other `--mode` value is rejected
by the argument parser before `build` runs). -/
inductive BuildMode where
  | minimal
  | full
deriving DecidableEq

/-- The resource set `build` settles on before the copy phase: minimal
collection, extra runtime dirs, entry-point assets, and (in full mode) the
web-accessible-resource expansion. -/
def resolvedResources (repo : Repo) (m : Manifest) (mode : BuildMode) :
    Finset FilePath' :=
  let minimal := include_side_panel_and_options_assets repo
    (include_extra_runtime_dirs repo (collect_minimal_resources repo m))
  match mode with
  | .minimal => minimal
  | .full => collect_full_resources repo m minimal

/-- The paths `build` collects into `missing`: resolved, absent on disk,
and not placeholder-eligible by base name. -/
def missingResources (repo : Repo) (all : Finset FilePath') : Finset FilePath' :=
  all.filter (fun rel => ¬ pathExists repo rel ∧ baseName rel ∉ placeholderNames)

/-- Outcome of `build`: every attempted copy (one per resolved path), and
the single aggregated error — `none` means success, exit code 0; `some s`
means one `BuildError` naming exactly the paths in `s`, exit code 1. -/
structure BuildResult where
  outputs : Finset (FilePath' × Option OutEntry)
  error : Option (Finset FilePath')
deriving DecidableEq

/-- `build`: attempt the copy for every resolved path (in sorted order in
the source; order-irrelevant here), then fail once with the aggregated
missing list when it is nonempty. -/
def build (repo : Repo) (m : Manifest) (mode : BuildMode) : BuildResult where
  outputs :=
    (resolvedResources repo m mode).image (fun rel => (rel, copy_resource repo rel))
  error :=
    if missingResources repo (resolvedResources repo m mode) = ∅ then none
    else some (missingResources repo (resolvedResources repo m mode))

/-! ### Concrete inputs used for evaluations -/

/-- A repository in which nothing exists on disk. -/
def emptyRepo : Repo where
  root := ["repo"]
  files := ∅
  htmlVals := fun _ => []

/-- A manifest declaring a background script and one content script,
neither of which exists in `emptyRepo`. -/
def twoMissingManifest : Manifest where
  background_service_worker := some "bg.js"
  content_scripts := [⟨["content.js"]⟩]

/-- A repository holding only `bg.js`. -/
def bgOnlyRepo : Repo where
  root := ["repo"]
  files := {["bg.js"]}
  htmlVals := fun _ => []

/-- A manifest declaring `bg.js` and an `icons` mapping to the absent
`icon-32.png`. -/
def missingIconManifest : Manifest where
  background_service_worker := some "bg.js"
  icons := [("32", "icon-32.png")]

/-- A repository with a side-panel entry HTML referencing one hashed asset
while a second co-generated asset sits unreferenced in the same `assets`
directory. -/
def sidePanelRepo : Repo where
  root := ["repo"]
  files :=
    {["side-panel", "index.html"], ["side-panel", "assets", "app.abc123.js"],
      ["side-panel", "assets", "app.abc123.css"]}
  htmlVals := fun h =>
    if h = ["side-panel", "index.html"] then ["assets/app.abc123.js"] else []

/-! ### Helper lemmas -/

/-- A successful glob match embeds every literal pattern character (one
that is neither `*` nor `?`) somewhere in the matched string. -/
theorem globMatch_literal_mem {c : Char} (h1 : c ≠ '*') (h2 : c ≠ '?') :
    ∀ p s : List Char, globMatch p s = true → c ∈ p → c ∈ s := by
  intro p
  induction p with
  | nil =>
    intro s _ hc
    simp at hc
  | cons a ps ih =>
    intro s h hc
    simp only [globMatch] at h
    rcases List.mem_cons.mp hc with rfl | hcp
    · rw [if_neg h1] at h
      cases s with
      | nil => simp at h
      | cons c' cs =>
        simp only [Bool.and_eq_true] at h
        rw [if_neg h2] at h
        exact (beq_iff_eq.mp h.1) ▸ List.mem_cons_self c' cs
    · by_cases ha : a = '*'
      · rw [if_pos ha, List.any_eq_true] at h
        obtain ⟨t, ht, hmt⟩ := h
        exact ((List.mem_tails t s).mp ht).subset (ih t hmt hcp)
      · rw [if_neg ha] at h
        cases s with
        | nil => simp at h
        | cons c' cs =>
          simp only [Bool.and_eq_true] at h
          exact List.mem_cons_of_mem c' (ih cs h.2 hcp)

/-- Splitting a prefix off: being a prefix and dropping its length to `p`
is the same as being `root ++ p`. -/
theorem prefix_drop_eq_iff (root cand p : List String) :
    root <+: cand ∧ cand.drop root.length = p ↔ cand = root ++ p := by
  constructor
  · rintro ⟨⟨t, rfl⟩, h⟩
    rw [List.drop_left] at h
    rw [h]
  · rintro rfl
    exact ⟨⟨p, rfl⟩, List.drop_left _ _⟩

/-- Membership in the singleton-or-empty set an optional truthy manifest
field contributes. -/
theorem mem_optPath (o : Option String) (p : FilePath') :
    p ∈ optPath o ↔ ∃ s, o = some s ∧ s ≠ "" ∧ p = pathOf s := by
  cases o with
  | none => simp [optPath]
  | some s =>
    by_cases h : s = "" <;> simp [optPath, h]

/-- Characterization of processing one raw attribute value. -/
theorem refOfRaw_eq_some (root htmlRel : List String) (raw : String) (p : FilePath') :
    refOfRaw root htmlRel raw = some p ↔
      strTrim raw ≠ "" ∧ ¬("://".toList <:+: (strTrim raw).toList) ∧
      strStartsWith (strTrim raw) "data:" = false ∧
      resolveRef root htmlRel (strTrim raw) = root ++ p := by
  rw [refOfRaw, ← prefix_drop_eq_iff root (resolveRef root htmlRel (strTrim raw)) p]
  constructor
  · intro h
    split at h
    next => exact absurd h (by simp)
    next hcond =>
      rw [Bool.or_eq_true, Bool.or_eq_true] at hcond
      push_neg at hcond
      obtain ⟨⟨hc0, hc1⟩, hc2⟩ := hcond
      split at h
      next hpre =>
        exact ⟨by simpa using hc0, by simpa using hc1, by simpa using hc2,
          List.isPrefixOf_iff_prefix.mp hpre, Option.some_inj.mp h⟩
      next => exact absurd h (by simp)
  · rintro ⟨h0, h1, h2, hpre, rfl⟩
    rw [if_neg ?_, if_pos (List.isPrefixOf_iff_prefix.mpr hpre)]
    rw [Bool.or_eq_true, Bool.or_eq_true]
    push_neg
    exact ⟨⟨by simpa using h0, by simpa using h1⟩, by simp [h2]⟩

/-! ### Claim theorems -/

/-- C9: every resolver augmentation operation is monotone — the result of
`include_extra_runtime_dirs`, `include_side_panel_and_options_assets`, and
`collect_full_resources` is a superset of the input resource set. -/
theorem resolver_augmentations_monotone (repo : Repo) (m : Manifest)
    (s : Finset FilePath') :
    s ⊆ include_extra_runtime_dirs repo s ∧
    s ⊆ include_side_panel_and_options_assets repo s ∧
    s ⊆ collect_full_resources repo m s := by
  refine ⟨?_, ?_, ?_⟩ <;> intro x hx <;>
    simp [include_extra_runtime_dirs, include_side_panel_and_options_assets,
      collect_full_resources, hx]

/-- C3: the minimal-mode resource set is a subset of the full-mode one,
and `collect_full_resources` only ever adds paths to the set it starts
from. -/
theorem minimal_subset_full (repo : Repo) (m : Manifest) :
    resolvedResources repo m BuildMode.minimal ⊆
      resolvedResources repo m BuildMode.full ∧
    ∀ s : Finset FilePath', s ⊆ collect_full_resources repo m s := by
  constructor
  · intro x hx
    simp only [resolvedResources, collect_full_resources] at hx ⊢
    exact Finset.mem_union_left _ hx
  · intro s x hx
    simp [collect_full_resources, hx]

/-- C10: placeholder eligibility is decided by base filename alone — a
resolved path whose final component is `icon-32.png` or `icon-128.png`,
in any directory, never enters the missing list, and when its source is
absent the copy step synthesizes the placeholder. -/
theorem placeholder_by_basename (repo : Repo) (all : Finset FilePath')
    (p : FilePath') (hname : baseName p ∈ placeholderNames) :
    p ∉ missingResources repo all ∧
    (¬ pathExists repo p →
      copy_resource repo p =
        some (OutEntry.placeholder TRANSPARENT_32_PX_PNG_BASE64)) := by
  constructor
  · rw [missingResources, Finset.mem_filter]
    rintro ⟨-, -, hno⟩
    exact hno hname
  · intro habsent
    rw [copy_resource, if_neg habsent, if_pos hname]

/-- C10 witness: `foo/icon-32.png`, missing from an empty repository, is
excluded from the missing list and replaced by the placeholder. -/
theorem placeholder_by_basename_witness :
    baseName ["foo", "icon-32.png"] ∈ placeholderNames ∧
    (["foo", "icon-32.png"] ∉
        missingResources ⟨["repo"], ∅, fun _ => []⟩ {["foo", "icon-32.png"]} ∧
      (¬ pathExists ⟨["repo"], ∅, fun _ => []⟩ ["foo", "icon-32.png"] →
        copy_resource ⟨["repo"], ∅, fun _ => []⟩ ["foo", "icon-32.png"] =
          some (OutEntry.placeholder TRANSPARENT_32_PX_PNG_BASE64))) :=
  ⟨by decide,
    placeholder_by_basename ⟨["repo"], ∅, fun _ => []⟩ {["foo", "icon-32.png"]}
      ["foo", "icon-32.png"] (by decide)⟩

/-- C5: in full mode, every repository file whose base name glob-matches a
wildcard web-accessible-resources pattern is added, irrespective of its
directory. -/
theorem wildcard_pattern_adds_matching_basenames (repo : Repo) (m : Manifest)
    (minimal : Finset FilePath') (pat : String) (f : FilePath')
    (hpat : pat ∈ allPatterns m) (hw : hasWildcard pat = true)
    (hf : f ∈ repo.files)
    (hm : globMatch pat.toList (baseName f).toList = true) :
    f ∈ collect_full_resources repo m minimal := by
  simp only [collect_full_resources, Finset.mem_union, Finset.mem_biUnion]
  right
  exact ⟨pat, List.mem_toFinset.mpr hpat,
    by rw [if_pos hw]; exact Finset.mem_filter.mpr ⟨hf, hm⟩⟩

/-- C5 witness: with pattern `*.css`, both `a/b/x.css` and `y.css` are
added in full mode. -/
theorem wildcard_pattern_adds_matching_basenames_witness :
    ("*.css" ∈ allPatterns ⟨none, [], none, none, [], [⟨["*.css"]⟩]⟩ ∧
      hasWildcard "*.css" = true ∧
      ["a", "b", "x.css"] ∈
        (⟨["repo"], {["a", "b", "x.css"], ["y.css"]}, fun _ => []⟩ : Repo).files ∧
      globMatch "*.css".toList (baseName ["a", "b", "x.css"]).toList = true) ∧
    ["a", "b", "x.css"] ∈
      collect_full_resources ⟨["repo"], {["a", "b", "x.css"], ["y.css"]}, fun _ => []⟩
        ⟨none, [], none, none, [], [⟨["*.css"]⟩]⟩ ∅ ∧
    ["y.css"] ∈
      collect_full_resources ⟨["repo"], {["a", "b", "x.css"], ["y.css"]}, fun _ => []⟩
        ⟨none, [], none, none, [], [⟨["*.css"]⟩]⟩ ∅ :=
  ⟨⟨by decide, by decide, by decide, by decide⟩,
    wildcard_pattern_adds_matching_basenames _ _ ∅ "*.css" ["a", "b", "x.css"]
      (by decide) (by decide) (by decide) (by decide),
    wildcard_pattern_adds_matching_basenames _ _ ∅ "*.css" ["y.css"]
      (by decide) (by decide) (by decide) (by decide)⟩

/-- The default of `getLastD` on a nonempty list is irrelevant: the result
is a member of the list. -/
theorem getLastD_cons_mem (a : String) (l : List String) (d : String) :
    (a :: l).getLastD d ∈ a :: l := by
  induction l generalizing a d with
  | nil => simp
  | cons b t ih =>
    rw [List.getLastD_cons]
    exact List.mem_cons_of_mem a (ih b b)

/-- C6 counterexample: with the single repository file `icons/x.png`,
full-mode expansion of the pattern `icons/*.png` does NOT yield the same
set as the pattern `*.png` (the former matches nothing, the latter matches
the file). -/
theorem dir_segment_pattern_counterexample :
    collect_full_resources ⟨["repo"], {["icons", "x.png"]}, fun _ => []⟩
        ⟨none, [], none, none, [], [⟨["icons/*.png"]⟩]⟩ ∅ ≠
      collect_full_resources ⟨["repo"], {["icons", "x.png"]}, fun _ => []⟩
        ⟨none, [], none, none, [], [⟨["*.png"]⟩]⟩ ∅ := by
  decide

/-- C6 amended: a wildcard pattern containing a directory separator `/`
matches no file at all in full-mode glob expansion — matching is applied
to the base name only, and a base name (a single path component) never
contains `/` — rather than behaving like its bare base-name part. -/
theorem dir_segment_pattern_matches_nothing (repo : Repo) (pat : String)
    (hslash : '/' ∈ pat.toList)
    (hwf : ∀ f ∈ repo.files, ∀ c ∈ f, '/' ∉ c.toList) :
    globExpand repo pat = ∅ := by
  apply Finset.eq_empty_iff_forall_not_mem.mpr
  intro f hf
  rw [globExpand, Finset.mem_filter] at hf
  have hmem : '/' ∈ (baseName f).toList :=
    globMatch_literal_mem (by decide) (by decide) _ _ hf.2 hslash
  cases f with
  | nil => simp [baseName] at hmem
  | cons a l => exact hwf _ hf.1 _ (getLastD_cons_mem a l "") hmem

/-- C6 amended witness: the pattern `icons/*.png` expands to nothing over
a repository containing `icons/x.png`. -/
theorem dir_segment_pattern_matches_nothing_witness :
    ('/' ∈ "icons/*.png".toList ∧
      (∀ f ∈ (⟨["repo"], {["icons", "x.png"]}, fun _ => []⟩ : Repo).files,
        ∀ c ∈ f, '/' ∉ c.toList)) ∧
    globExpand ⟨["repo"], {["icons", "x.png"]}, fun _ => []⟩ "icons/*.png" = ∅ :=
  ⟨⟨by decide, by decide⟩,
    dir_segment_pattern_matches_nothing ⟨["repo"], {["icons", "x.png"]}, fun _ => []⟩
      "icons/*.png" (by decide) (by decide)⟩

/-- C7: `collect_minimal_resources` returns (as a `Finset`, hence
duplicate-free, each path appearing once however many fields reference it)
exactly: the truthy background service worker, every content-script `js`
path, the truthy side-panel default path, the truthy action default icon,
every `icons` mapping value, and every file under `_locales`; absent
fields contribute nothing. -/
theorem collect_minimal_resources_spec (repo : Repo) (m : Manifest) (p : FilePath') :
    p ∈ collect_minimal_resources repo m ↔
      ((∃ s, m.background_service_worker = some s ∧ s ≠ "" ∧ p = pathOf s) ∨
       (∃ cs ∈ m.content_scripts, ∃ j ∈ cs.js, p = pathOf j) ∨
       (∃ s, m.side_panel_default_path = some s ∧ s ≠ "" ∧ p = pathOf s) ∨
       (∃ s, m.action_default_icon = some s ∧ s ≠ "" ∧ p = pathOf s) ∨
       (∃ kv ∈ m.icons, p = pathOf kv.2) ∨
       (p ∈ repo.files ∧ ["_locales"] <+: p ∧ p ≠ ["_locales"])) := by
  simp only [collect_minimal_resources, Finset.mem_union, mem_optPath,
    List.mem_toFinset, List.mem_map, List.mem_flatMap, filesUnder,
    Finset.mem_filter]
  constructor
  · rintro (((((h | h) | h) | h) | h) | h)
    · exact Or.inl h
    · obtain ⟨j, ⟨cs, hcs, hj⟩, hp⟩ := h
      exact Or.inr (Or.inl ⟨cs, hcs, j, hj, hp.symm⟩)
    · exact Or.inr (Or.inr (Or.inl h))
    · exact Or.inr (Or.inr (Or.inr (Or.inl h)))
    · obtain ⟨kv, hkv, hp⟩ := h
      exact Or.inr (Or.inr (Or.inr (Or.inr (Or.inl ⟨kv, hkv, hp.symm⟩))))
    · exact Or.inr (Or.inr (Or.inr (Or.inr (Or.inr ⟨h.1, h.2⟩))))
  · rintro (h | ⟨cs, hcs, j, hj, hp⟩ | h | h | ⟨kv, hkv, hp⟩ | h)
    · exact Or.inl (Or.inl (Or.inl (Or.inl (Or.inl h))))
    · exact Or.inl (Or.inl (Or.inl (Or.inl (Or.inr ⟨j, ⟨cs, hcs, hj⟩, hp.symm⟩))))
    · exact Or.inl (Or.inl (Or.inl (Or.inr h)))
    · exact Or.inl (Or.inl (Or.inr h))
    · exact Or.inl (Or.inr ⟨kv, hkv, hp.symm⟩)
    · exact Or.inr ⟨h.1, h.2⟩

/-- C8: the HTML asset scan records exactly the attribute values that
survive the `://` / `data:` / emptiness filter, resolved against the HTML
file's own directory, and only when the resolved absolute path lies under
the repository root — whether or not the file exists on disk. -/
theorem extract_html_asset_refs_spec (repo : Repo) (html : FilePath') (p : FilePath') :
    p ∈ extract_html_asset_refs repo html ↔
      (html ∈ repo.files ∧ ∃ raw ∈ repo.htmlVals html,
        strTrim raw ≠ "" ∧ ¬("://".toList <:+: (strTrim raw).toList) ∧
        strStartsWith (strTrim raw) "data:" = false ∧
        resolveRef repo.root html (strTrim raw) = repo.root ++ p) := by
  rw [extract_html_asset_refs]
  split
  next hhtml =>
    simp only [List.mem_toFinset, List.mem_filterMap, refOfRaw_eq_some, hhtml,
      true_and]
  next hhtml =>
    simp [hhtml]

/-- C4: for every discovered asset reference of an entry HTML file that
contains a component literally named `assets`, every repository file
beneath the directory ending at the first such component is added to the
resource set. -/
theorem asset_bundle_completeness (repo : Repo) (resources : Finset FilePath')
    (html ref f : FilePath')
    (hhtml : html ∈ entryFiles repo)
    (href : ref ∈ extract_html_asset_refs repo html)
    (hassets : "assets" ∈ ref)
    (hf : f ∈ filesUnder repo.files (ref.take (ref.indexOf "assets" + 1))) :
    f ∈ include_side_panel_and_options_assets repo resources := by
  rw [include_side_panel_and_options_assets]
  have hdir : ref.take (ref.indexOf "assets" + 1) ∈
      ((entryFiles repo).toFinset.biUnion (extract_html_asset_refs repo)).biUnion
        (fun r =>
          match assetDirOf r with
          | some d => {d}
          | none => ∅) := by
    apply Finset.mem_biUnion.mpr
    refine ⟨ref, Finset.mem_biUnion.mpr ⟨html, List.mem_toFinset.mpr hhtml, href⟩, ?_⟩
    rw [assetDirOf, if_pos hassets]
    exact Finset.mem_singleton_self _
  exact Finset.mem_union_right _ (Finset.mem_biUnion.mpr ⟨_, hdir, hf⟩)

/-- C4 witness: the entry HTML references `assets/app.abc123.js`; the
unreferenced `side-panel/assets/app.abc123.css` is nevertheless included. -/
theorem asset_bundle_completeness_witness :
    (["side-panel", "index.html"] ∈ entryFiles sidePanelRepo ∧
      ["side-panel", "assets", "app.abc123.js"] ∈
        extract_html_asset_refs sidePanelRepo ["side-panel", "index.html"] ∧
      "assets" ∈ (["side-panel", "assets", "app.abc123.js"] : FilePath') ∧
      ["side-panel", "assets", "app.abc123.css"] ∈
        filesUnder sidePanelRepo.files
          ((["side-panel", "assets", "app.abc123.js"] : FilePath').take
            ((["side-panel", "assets", "app.abc123.js"] : FilePath').indexOf "assets" + 1))) ∧
    ["side-panel", "assets", "app.abc123.css"] ∈
      include_side_panel_and_options_assets sidePanelRepo ∅ :=
  ⟨⟨by decide, by decide, by decide, by decide⟩,
    asset_bundle_completeness sidePanelRepo ∅ ["side-panel", "index.html"]
      ["side-panel", "assets", "app.abc123.js"]
      ["side-panel", "assets", "app.abc123.css"]
      (by decide) (by decide) (by decide) (by decide)⟩

/-- C1: when two or more resolved, non-placeholder-eligible paths are
missing on disk, the build attempts the copy for every resolved resource
and fails exactly once, with a single aggregated error naming exactly the
set of all missing paths — never separately per path, never with partial
success. -/
theorem build_aggregated_failure (repo : Repo) (m : Manifest) (mode : BuildMode)
    (S : Finset FilePath')
    (hS : S ⊆ resolvedResources repo m mode)
    (hcard : 2 ≤ S.card)
    (hmiss : ∀ p ∈ S, ¬ pathExists repo p ∧ baseName p ∉ placeholderNames) :
    ∃ M, (build repo m mode).error = some M ∧ S ⊆ M ∧
      (∀ p, p ∈ M ↔
        p ∈ resolvedResources repo m mode ∧ ¬ pathExists repo p ∧
          baseName p ∉ placeholderNames) ∧
      (∀ r ∈ resolvedResources repo m mode,
        (r, copy_resource repo r) ∈ (build repo m mode).outputs) := by
  have hsub : S ⊆ missingResources repo (resolvedResources repo m mode) := by
    intro p hp
    rw [missingResources, Finset.mem_filter]
    exact ⟨hS hp, hmiss p hp⟩
  have hne : missingResources repo (resolvedResources repo m mode) ≠ ∅ := by
    intro h
    rw [h, Finset.subset_empty] at hsub
    rw [hsub] at hcard
    simp at hcard
  refine ⟨missingResources repo (resolvedResources repo m mode), ?_, hsub, ?_, ?_⟩
  · simp only [build]
    rw [if_neg hne]
  · intro p
    rw [missingResources, Finset.mem_filter]
  · intro r hr
    simp only [build]
    exact Finset.mem_image.mpr ⟨r, hr, rfl⟩

/-- C1 witness: both `bg.js` and `content.js` are resolved and missing;
the build fails once, naming both, after attempting both copies. -/
theorem build_aggregated_failure_witness :
    ({["bg.js"], ["content.js"]} ⊆
        resolvedResources emptyRepo twoMissingManifest BuildMode.minimal ∧
      2 ≤ ({["bg.js"], ["content.js"]} : Finset FilePath').card ∧
      (∀ p ∈ ({["bg.js"], ["content.js"]} : Finset FilePath'),
        ¬ pathExists emptyRepo p ∧ baseName p ∉ placeholderNames)) ∧
    (∃ M, (build emptyRepo twoMissingManifest BuildMode.minimal).error = some M ∧
      ({["bg.js"], ["content.js"]} : Finset FilePath') ⊆ M ∧
      (∀ p, p ∈ M ↔
        p ∈ resolvedResources emptyRepo twoMissingManifest BuildMode.minimal ∧
          ¬ pathExists emptyRepo p ∧ baseName p ∉ placeholderNames) ∧
      (∀ r ∈ resolvedResources emptyRepo twoMissingManifest BuildMode.minimal,
        (r, copy_resource emptyRepo r) ∈
          (build emptyRepo twoMissingManifest BuildMode.minimal).outputs)) :=
  ⟨⟨by decide, by decide, by decide⟩,
    build_aggregated_failure emptyRepo twoMissingManifest BuildMode.minimal
      {["bg.js"], ["content.js"]} (by decide) (by decide) (by decide)⟩

/-- C2: when every resolved path except one placeholder-eligible icon
(`icon-32.png` or `icon-128.png`) exists on disk, the build does not fail
(exit code 0) and synthesizes the fixed transparent placeholder PNG at
that output path. -/
theorem placeholder_fallback_build_succeeds (repo : Repo) (m : Manifest)
    (mode : BuildMode) (p : FilePath')
    (hp : p ∈ resolvedResources repo m mode)
    (hname : baseName p ∈ placeholderNames)
    (habsent : ¬ pathExists repo p)
    (hrest : ∀ q ∈ resolvedResources repo m mode, q ≠ p → pathExists repo q) :
    (build repo m mode).error = none ∧
    (p, some (OutEntry.placeholder TRANSPARENT_32_PX_PNG_BASE64)) ∈
      (build repo m mode).outputs := by
  have hempty : missingResources repo (resolvedResources repo m mode) = ∅ := by
    apply Finset.eq_empty_iff_forall_not_mem.mpr
    intro q hq
    rw [missingResources, Finset.mem_filter] at hq
    obtain ⟨hq1, hq2, hq3⟩ := hq
    by_cases hqp : q = p
    · exact hq3 (hqp ▸ hname)
    · exact hq2 (hrest q hq1 hqp)
  constructor
  · simp only [build]
    rw [if_pos hempty]
  · simp only [build]
    apply Finset.mem_image.mpr
    refine ⟨p, hp, ?_⟩
    rw [copy_resource, if_neg habsent, if_pos hname]

/-- C2 witness: `icon-32.png` is referenced via the icons mapping and
absent while `bg.js` exists; the build succeeds and writes the
placeholder. -/
theorem placeholder_fallback_build_succeeds_witness :
    (["icon-32.png"] ∈
        resolvedResources bgOnlyRepo missingIconManifest BuildMode.minimal ∧
      baseName ["icon-32.png"] ∈ placeholderNames ∧
      ¬ pathExists bgOnlyRepo ["icon-32.png"] ∧
      (∀ q ∈ resolvedResources bgOnlyRepo missingIconManifest BuildMode.minimal,
        q ≠ ["icon-32.png"] → pathExists bgOnlyRepo q)) ∧
    ((build bgOnlyRepo missingIconManifest BuildMode.minimal).error = none ∧
      (["icon-32.png"],
          some (OutEntry.placeholder TRANSPARENT_32_PX_PNG_BASE64)) ∈
        (build bgOnlyRepo missingIconManifest BuildMode.minimal).outputs) :=
  ⟨⟨by decide, by decide, by decide, by decide⟩,
    placeholder_fallback_build_succeeds bgOnlyRepo missingIconManifest
      BuildMode.minimal ["icon-32.png"] (by decide) (by decide) (by decide)
      (by decide)⟩
